import Mathlib

/-!
Verification of the CodeInPython mode's sandboxed path resolver and
archive installer (`src/mu/modes/codeinpython.py`).

The Python functions are shallowly embedded as Lean definitions.  The
embedding fixes the POSIX platform (`os.sep = "/"`, `os.path.normcase` is
the identity).  Python strings are Lean `String`s restricted to the ASCII
fragment of Python's Unicode-aware character classes; `None`-able strings
are `Option String`.  Filesystem and zip-archive queries are abstracted as
oracles, and filesystem mutations are recorded as an explicit trace.
-/

namespace CodeInPython

/-! ## Python string primitives (ASCII fragment) -/

/-- Python `str.isspace` characters (ASCII fragment): the characters
stripped by `str.strip()`. -/
def pyIsSpace (c : Char) : Bool :=
  c = ' ' || c = '\t' || c = '\n' || c = '\r' || c = '\x0B' || c = '\x0C'

/-- Python `str.strip()`: drop leading and trailing whitespace. -/
def pyStrip (s : String) : String :=
  String.mk (((s.toList.dropWhile pyIsSpace).reverse.dropWhile pyIsSpace).reverse)

/-- Python `str.replace(" ", "_")`: every space character (U+0020 only)
becomes an underscore. -/
def replaceSpace (s : String) : String :=
  String.mk (s.toList.map (fun c => if c = ' ' then '_' else c))

/-- The ASCII fragment of Python's Unicode-aware `\w` class:
letters, digits and underscore. -/
def pyWordChar (c : Char) : Bool :=
  c.isAlphanum || c = '_'

/-- Characters kept by `re.sub(r"(?u)[^-\w.]", "", s)`. -/
def sanitizeKeep (c : Char) : Bool :=
  pyWordChar c || c = '-' || c = '.'

/-- `re.sub(r"(?u)[^-\w.]", "", s)`: delete every character outside
`[-\w.]`. -/
def reSubNonWord (s : String) : String :=
  String.mk (s.toList.filter sanitizeKeep)

/-- Python `str.startswith` (also `String.isPrefixOf`), computed
structurally on the character lists. -/
def pyStartsWith (s pre : String) : Bool :=
  pre.toList.isPrefixOf s.toList

/-- Python `"{}".format(x)` on a `str`-or-`None` value. -/
def pyFormat : Option String → String
  | none => "None"
  | some s => s

/-- Python `str.split(sep)` for a one-character separator: keeps empty
pieces, `"".split(sep) = [""]`. -/
def splitOnChar (sep : Char) : List Char → List (List Char)
  | [] => [[]]
  | c :: rest =>
    let r := splitOnChar sep rest
    if c = sep then [] :: r
    else
      match r with
      | [] => [[c]]
      | h :: t => (c :: h) :: t

/-- Python `s.split("/")` (`os.sep` on POSIX). -/
def splitSlash (s : String) : List String :=
  (splitOnChar '/' s.toList).map String.mk

/-- Join a list of strings with a separator (used for `"/".join`). -/
def joinSep (sep : String) : List String → String
  | [] => ""
  | x :: xs => xs.foldl (fun acc y => acc ++ sep ++ y) x

/-- Concatenate a list of strings. -/
def strJoin (l : List String) : String :=
  l.foldl (fun a b => a ++ b) ""

/-! ## POSIX path primitives (`posixpath`) -/

/-- `os.path.normpath` on POSIX: collapse separators, drop `.`
components, resolve `..` lexically, preserve one or two leading
slashes. -/
def normpath (path : String) : String :=
  if path = "" then "." else
  let initialSlashes : Nat :=
    if pyStartsWith path "/" then
      if pyStartsWith path "//" && !(pyStartsWith path "///") then 2 else 1
    else 0
  let comps := splitSlash path
  let newComps := comps.foldl (fun acc comp =>
    if comp = "" || comp = "." then acc
    else if comp ≠ ".." || (initialSlashes = 0 && acc = []) ||
            (acc ≠ [] && acc.getLast? = some "..") then acc ++ [comp]
    else if acc ≠ [] then acc.dropLast else acc) []
  let joined := String.mk (List.replicate initialSlashes '/') ++ joinSep "/" newComps
  if joined = "" then "." else joined

/-- `os.path.join` on POSIX for two components. -/
def pyJoin (a b : String) : String :=
  if pyStartsWith b "/" then b
  else if a = "" || pyStartsWith (String.mk a.toList.reverse) "/" then a ++ b
  else a ++ "/" ++ b

/-- `os.path.split` on POSIX: split at the final slash; the head keeps
no trailing slashes unless it is all slashes. -/
def posixSplit (p : String) : String × String :=
  let cs := p.toList
  let tl := (cs.reverse.takeWhile (fun c => c ≠ '/')).reverse
  let hd := cs.take (cs.length - tl.length)
  let hd2 :=
    if hd ≠ [] && hd.any (fun c => c ≠ '/') then
      (hd.reverse.dropWhile (fun c => c = '/')).reverse
    else hd
  (String.mk hd2, String.mk tl)

/-- `os.path.splitext` on POSIX: split off the extension after the last
dot of the basename, unless all characters before that dot are dots. -/
def splitext (p : String) : String × String :=
  let cs := p.toList
  let tl := (cs.reverse.takeWhile (fun c => c ≠ '/')).reverse
  let hd := cs.take (cs.length - tl.length)
  let extLen := (tl.reverse.takeWhile (fun c => c ≠ '.')).length
  if extLen < tl.length then
    let stem := tl.take (tl.length - extLen - 1)
    if stem.any (fun c => c ≠ '.') then
      (String.mk (hd ++ stem), String.mk ('.' :: tl.drop (tl.length - extLen)))
    else (p, "")
  else (p, "")

/-! ## `path_clean` -/

/-- `path_clean(path, lowercase=False, real=True)` from the source.
`os.path.normcase` is the identity on POSIX; `os.path.expanduser` is the
identity on paths that do not start with `~`; `os.path.realpath` on an
absolute, symlink-free path coincides with `normpath`.  The repository
applies `path_clean` to absolute, `~`-free paths, so the composition
reduces to `normpath`, except that the empty string is returned
unchanged. -/
def path_clean (p : String) : String :=
  if p = "" then "" else normpath p

/-! ## `CodeInPython_Settings`: constants and instance state -/

/-- `SUBPATH_MAIN` (`os.path.normpath("codeinpython_env")`). -/
def SUBPATH_MAIN : String := "codeinpython_env"

/-- `SUBPATH_WORKSPACE`. -/
def SUBPATH_WORKSPACE : String := "workspace"

/-- `SUBPATH_ARCHIVE`. -/
def SUBPATH_ARCHIVE : String := "archive"

/-- `SUBPATH_EXAMPLES`. -/
def SUBPATH_EXAMPLES : String := "examples"

/-- `SUBPATH_CUSTOM_EXAMPLES`. -/
def SUBPATH_CUSTOM_EXAMPLES : String := "custom_examples"

/-- `SUBPATH_PRIVATE_EXAMPLES`. -/
def SUBPATH_PRIVATE_EXAMPLES : String := "private"

/-- `SUBPATH_TEMP`. -/
def SUBPATH_TEMP : String := "temp"

/-- `SUBPATH_LIBRARIES`. -/
def SUBPATH_LIBRARIES : String := "code_lib"

/-- `SUBPATH_MU_MODULE`. -/
def SUBPATH_MU_MODULE : String := "mu_modules"

/-- `SUBPATH_FIRMWARE`. -/
def SUBPATH_FIRMWARE : String := "firmware"

/-- `ZIP_FILENAME`. -/
def ZIP_FILENAME : String := "codeinpython_update.zip"

/-- `CONFIG_FILENAME`. -/
def CONFIG_FILENAME : String := "codeinpython_config.xml"

/-- The mutable instance state of `CodeInPython_Settings` used by the
path resolver: `SUBPATH_MU_CODE` is `get_default_workspace()`.
Modelled from the spec: `get_default_workspace` is outside this
repository; per the spec, `WorkspaceRoot` is "a single absolute
directory, fixed at process start". -/
structure Config where
  mu_code : String
  subpath_class : String
  user_name : String
  language : String
  deriving DecidableEq

/-! ## `__path_create` (the resolver) -/

/-- The first loop of `__path_create`: skip `None` parameters, apply
`os.path.normpath` to each remaining parameter and split it on
`os.sep`, accumulating all pieces in order. -/
def params_separate (parameters : List (Option String)) : List String :=
  parameters.foldl (fun acc e =>
    match e with
    | none => acc
    | some s => acc ++ splitSlash (normpath s)) []

/-- The body of the second loop of `__path_create`:
`str(element).strip().replace(" ", "_")` followed by
`re.sub(r"(?u)[^-\w.]", "", s)`. -/
def sanitize_segment (s : String) : String :=
  reSubNonWord (replaceSpace (pyStrip s))

/-- The second loop of `__path_create`: sanitize every separated
piece. -/
def params_sanitize (l : List String) : List String :=
  l.map sanitize_segment

/-- The pseudo-segment literal used by the `"student file"` and
`"student private file"` templates. -/
def APPEND_PY : String := "append py file"

/-- The `path_struct` dictionary of `__path_create`: the ordered
template of path elements for each known place, with the sanitized
parameters spliced in; `none` for an unknown place. -/
def path_struct (cfg : Config) (params : List String) (place : String) :
    Option (List String) :=
  if place = "main" then
    some ([cfg.mu_code, SUBPATH_MAIN] ++ params)
  else if place = "workspace" then
    some ([cfg.mu_code, SUBPATH_MAIN, SUBPATH_WORKSPACE] ++ params)
  else if place = "class" then
    some ([cfg.mu_code, SUBPATH_MAIN, SUBPATH_WORKSPACE, cfg.subpath_class] ++ params)
  else if place = "student" then
    some ([cfg.mu_code, SUBPATH_MAIN, SUBPATH_WORKSPACE, cfg.subpath_class,
           cfg.user_name] ++ params)
  else if place = "student file" then
    some ([cfg.mu_code, SUBPATH_MAIN, SUBPATH_WORKSPACE, cfg.subpath_class,
           cfg.user_name] ++ params ++ [APPEND_PY])
  else if place = "student private" then
    some ([cfg.mu_code, SUBPATH_MAIN, SUBPATH_WORKSPACE, cfg.subpath_class,
           cfg.user_name, SUBPATH_PRIVATE_EXAMPLES] ++ params)
  else if place = "student private file" then
    some ([cfg.mu_code, SUBPATH_MAIN, SUBPATH_WORKSPACE, cfg.subpath_class,
           cfg.user_name, SUBPATH_PRIVATE_EXAMPLES] ++ params ++ [APPEND_PY])
  else if place = "examples" then
    some ([cfg.mu_code, SUBPATH_MAIN, SUBPATH_EXAMPLES] ++ params)
  else if place = "custom examples" then
    some ([cfg.mu_code, SUBPATH_MAIN, SUBPATH_CUSTOM_EXAMPLES] ++ params)
  else if place = "zip install" then
    some ([cfg.mu_code, SUBPATH_MAIN] ++ params)
  else if place = "zip install default file" then
    some [cfg.mu_code, SUBPATH_MAIN, ZIP_FILENAME]
  else if place = "zip_archive" then
    some ([cfg.mu_code, SUBPATH_MAIN, SUBPATH_ARCHIVE] ++ params)
  else if place = "zip archive file" then
    some [cfg.mu_code, SUBPATH_MAIN, SUBPATH_ARCHIVE, ZIP_FILENAME]
  else if place = "temp" then
    some ([cfg.mu_code, SUBPATH_MAIN, SUBPATH_TEMP] ++ params)
  else if place = "libraries" then
    some ([cfg.mu_code, SUBPATH_MAIN, SUBPATH_LIBRARIES] ++ params)
  else if place = "firmware" then
    some ([cfg.mu_code, SUBPATH_MAIN, SUBPATH_FIRMWARE] ++ params)
  else if place = "mu_modules" then
    some ([cfg.mu_code, SUBPATH_MAIN, SUBPATH_MU_MODULE] ++ params)
  else none

/-- The assembly loop of `__path_create`: join the elements with
`os.path.join`, where the `"append py file"` pseudo-segment instead
joins `os.path.split(path)[1] + ".py"`. -/
def assemble (elems : List String) : String :=
  elems.foldl (fun path element =>
    if element = APPEND_PY then pyJoin path ((posixSplit path).2 ++ ".py")
    else pyJoin path element) ""

/-- `__path_create(place, *parameters)`: sanitize the parameters, look
the place up in `path_struct`, assemble and `path_clean` the result.
`none` models the `ValueError` raised for an unknown place. -/
def path_create (cfg : Config) (place : String)
    (parameters : List (Option String)) : Option String :=
  let params := params_sanitize (params_separate parameters)
  match path_struct cfg params place with
  | some elems => some (path_clean (assemble elems))
  | none => none

/-- The `path_limit` computed by `valid_path`:
`self.__path_create("main")` (always defined). -/
def main_limit (cfg : Config) : String :=
  (path_create cfg "main" []).getD ""

/-- `valid_path(path_input, allow_main)`: compare
`path_clean(path_input)` (or its `os.path.split` head when the main
root itself is not allowed) against `path_limit` with
`str.startswith`. -/
def valid_path (cfg : Config) (path_input : String) (allow_main : Bool) : Bool :=
  let path_limit := main_limit cfg
  let path_to_check := path_clean path_input
  if allow_main then pyStartsWith path_to_check path_limit
  else pyStartsWith (posixSplit path_to_check).1 path_limit

/-- `path_get(place, *parameters)`: the created path when `valid_path`
accepts it, `""` when it rejects it; `none` models the `ValueError`
propagated from `__path_create` for an unknown place. -/
def path_get (cfg : Config) (place : String)
    (parameters : List (Option String)) : Option String :=
  match path_create cfg place parameters with
  | none => none
  | some p => some (if valid_path cfg p true then p else "")

/-! ## XML elements and `xml_get_with_lang` -/

/-- A flat XML child element as used by `xml_get_with_lang`: a tag, the
optional `lang` attribute (`element.get("lang")`), and the optional
text. -/
structure XElem where
  tag : String
  lang : Option String
  text : Option String
  deriving DecidableEq

/-- The first loop of `xml_get_with_lang`: scan for the best-fit
language, with an immediate `break` on an exact match, the `default`
language overriding any remembered best-so-far, and otherwise the first
language encountered being remembered (`best` is the running
`lang_best_fit`). -/
def find_best_fit (name : String) (lang default : Option String) :
    List XElem → Option String → Option String
  | [], best => best
  | e :: rest, best =>
    if e.tag = name then
      let which := e.lang
      if which = lang then lang
      else if which = default then find_best_fit name lang default rest default
      else if best = none then find_best_fit name lang default rest which
      else find_best_fit name lang default rest best
    else find_best_fit name lang default rest best

/-- The second loop of `xml_get_with_lang`: concatenate, in document
order, the text of every element whose tag matches and whose `lang`
equals the chosen best fit, joined with the separator (a `None` first
text keeps the accumulator `None`, exactly as the Python code). -/
def collect_lang (name : String) (best : Option String) (separator : String)
    (child : List XElem) : Option String :=
  child.foldl (fun result e =>
    if e.tag = name && e.lang = best then
      match result with
      | none => e.text
      | some r => some (r ++ separator ++ pyFormat e.text)
    else result) none

/-- `xml_get_with_lang(child, name, lang=None, default="en", separator="")`
from the source.  Python strings are `some`-wrapped; an absent `lang`
attribute is `none`. -/
def xml_get_with_lang (child : List XElem) (name : String)
    (lang default : Option String) (separator : String) : Option String :=
  collect_lang name (find_best_fit name lang default child none) separator child

/-! ## Manifest version extraction and `zip_check_content` -/

/-- The dictionary built by `xml_get_version`; all three values are
Python `str`-or-`None`. -/
structure VersionInfo where
  release : Option String
  date : Option String
  description : Option String
  deriving DecidableEq

/-- The placeholder dictionary `{"release": "----", "date": "----",
"description": "----"}`. -/
def placeholderVersion : VersionInfo :=
  ⟨some "----", some "----", some "----"⟩

/-- The `source` argument of `xml_get_version`: the empty string, a
file whose XML parse succeeds (with the given root children), or a file
whose XML parse raises. -/
inductive XmlSource where
  | empty : XmlSource
  | doc : List XElem → XmlSource
  | malformed : XmlSource
  deriving DecidableEq

/-- `xml_get_version(source)`: placeholders for `""`, a raised
`ParseError` for a malformed document (`.error ()`), otherwise
`release`/`release_date` picked from the root children and the
localized `description`. -/
def xml_get_version (language : String) (source : XmlSource) :
    Except Unit (Bool × VersionInfo) :=
  match source with
  | .empty => .ok (false, placeholderVersion)
  | .malformed => .error ()
  | .doc root =>
    let r0 := root.foldl (fun acc child =>
      let acc1 := if child.tag = "release" then { acc with release := child.text } else acc
      if child.tag = "release_date" then { acc1 with date := child.text } else acc1)
      placeholderVersion
    .ok (true, { r0 with
      description := xml_get_with_lang root "description" (some language) (some "en") "\n" })

/-- The filesystem/zip oracle for the archive functions: `isfile` is
`os.path.isfile`, `is_zipfile` is `zipfile.is_zipfile` (also standing
for "the `zipfile.ZipFile` constructor succeeds"), `namelist` is the
archive's member list, and `config` is the outcome of opening and
parsing `CONFIG_FILENAME` inside the archive at that path. -/
structure FileOracle where
  isfile : String → Bool
  is_zipfile : String → Bool
  namelist : String → List String
  config : String → XmlSource

/-- `zip_get_version(source)`: open the archive and parse the manifest
when the target is a file with a `.zip` extension containing
`CONFIG_FILENAME`; fall back to `xml_get_version("")` otherwise.
Opening a non-zip file raises (`.error ()`). -/
def zip_get_version (o : FileOracle) (language : String) (source : String) :
    Except Unit (Bool × VersionInfo) :=
  if o.isfile source then
    if (splitext source).2 = ".zip" then
      if o.is_zipfile source then
        if CONFIG_FILENAME ∈ o.namelist source then
          xml_get_version language (o.config source)
        else xml_get_version language .empty
      else .error ()
    else xml_get_version language .empty
  else xml_get_version language .empty

/-- The `src` local of `zip_check_content`: the cleaned input path, or
the default inbox path when the input is empty. -/
def checked_src (cfg : Config) (input_path : String) : String :=
  if input_path ≠ "" then path_clean input_path
  else (path_get cfg "zip install default file" []).getD ""

/-- `zip_check_content(input_path="")`: clean the input (or use the
default inbox path), then require a regular file, a zip container, and
a `valid` verdict from `zip_get_version`. -/
def zip_check_content (cfg : Config) (o : FileOracle) (input_path : String) :
    Except Unit Bool :=
  let src := checked_src cfg input_path
  if !(o.isfile src) then .ok false
  else if o.is_zipfile src then
    match zip_get_version o cfg.language src with
    | .error e => .error e
    | .ok (valid, _) => .ok valid
  else .ok false

/-! ## `update_data_from_zip` (the installer)

The installer is embedded as a pure function over oracles for the
filesystem queries it makes, returning the Python result value, the
accumulated `list_of_errors` report, and an explicit trace of the
filesystem mutations it performs.  Each loop iteration's contribution
is independent of the accumulated report, so the `+=` loops are
embedded as concatenations of per-entry contributions in document
order. -/

/-- A child of the manifest's `update` element (a `remove`/`copy`
entry): its tag and its text. -/
structure UEntry where
  tag : String
  text : Option String
  deriving DecidableEq

/-- A child of the manifest root as traversed by the installer: its tag
and, for an `update` element, its own ordered children. -/
structure UChild where
  tag : String
  entries : List UEntry
  deriving DecidableEq

/-- A recorded filesystem mutation of the installer. -/
inductive FsOp where
  | rmtree : String → FsOp
  | removeFile : String → FsOp
  | makedirs : String → FsOp
  | overwrite : String → String → FsOp
  | copy2 : String → String → FsOp
  deriving DecidableEq

/-- Filesystem query oracle for the installer: `os.path.exists`,
`os.path.isdir`, `os.path.isfile` and `os.path.samefile`. -/
structure FsOracle where
  existsAt : String → Bool
  isdir : String → Bool
  isfile : String → Bool
  samefile : String → String → Bool

/-- Existence of the file at `zip` after applying the recorded
mutations in order, starting from `initial`: `os.remove` deletes it
when it is the exact target, `shutil.rmtree` deletes it when it lies at
or under the removed tree, and `recursive_overwrite` re-creates it when
it is the exact overwrite destination.  (Re-creation as an inner member
of a directory overwrite depends on the archive's contents and is not
modeled; `makedirs` and the archive `copy2` do not affect it.) -/
def zip_exists_after (zip : String) (ops : List FsOp) (initial : Bool) : Bool :=
  ops.foldl (fun ex op =>
    match op with
    | .removeFile p => if p = zip then false else ex
    | .rmtree p => if p = zip || pyStartsWith zip (p ++ "/") then false else ex
    | .overwrite _ dest => if dest = zip then true else ex
    | _ => ex) initial

/-- One iteration of the first (`remove`) loop: resolve the target
under `"main"`, check containment with the root itself disallowed, and
either remove the tree/file or record a `"- removing: …"` report
line. -/
def remove_entry (cfg : Config) (fs : FsOracle) (destination : String)
    (e : UEntry) : String × List FsOp :=
  if e.tag = "remove" then
    let path_to_remove := (path_get cfg "main" [some destination, e.text]).getD ""
    if valid_path cfg path_to_remove false then
      if fs.isdir path_to_remove then ("", [FsOp.rmtree path_to_remove])
      else if fs.isfile path_to_remove then ("", [FsOp.removeFile path_to_remove])
      else ("", [])
    else ("- removing: " ++ pyFormat e.text ++ "\n", [])
  else ("", [])

/-- One iteration of the second (`copy`) loop: resolve the extracted
source under `"temp"` and the destination under `"main"`; record a
`"- copying: …"` report line and skip when the source is absent,
otherwise recursively overwrite. -/
def copy_entry (cfg : Config) (fs : FsOracle) (destination : String)
    (e : UEntry) : String × List FsOp :=
  if e.tag = "copy" then
    let src := (path_get cfg "temp" [e.text]).getD ""
    let dest := (path_get cfg "main" [some destination, e.text]).getD ""
    if !(fs.existsAt src) then ("- copying: " ++ pyFormat e.text ++ "\n", [])
    else ("", [FsOp.overwrite src dest])
  else ("", [])

/-- Concatenate report/trace contributions in order. -/
def pjoin (l : List (String × List FsOp)) : String × List FsOp :=
  (strJoin (l.map Prod.fst), (l.map Prod.snd).flatten)

/-- The two passes over one root child: all `remove` entries first,
then all `copy` entries ("it has to be done as two loops"); a child
that is not `update` contributes nothing. -/
def update_child_ops (cfg : Config) (fs : FsOracle) (destination : String)
    (child : UChild) : String × List FsOp :=
  if child.tag = "update" then
    let r := pjoin (child.entries.map (remove_entry cfg fs destination))
    let c := pjoin (child.entries.map (copy_entry cfg fs destination))
    (r.1 ++ c.1, r.2 ++ c.2)
  else ("", [])

/-- The full traversal `for child in root: if child.tag == "update": …`. -/
def process_root (cfg : Config) (fs : FsOracle) (destination : String)
    (root : List UChild) : String × List FsOp :=
  pjoin (root.map (update_child_ops cfg fs destination))

/-- The environment of one `update_data_from_zip` run: the settings
instance, the `zip_check_content` verdict on the source (assumed not to
raise), whether `extractall` succeeds, and the outcome of re-opening
and parsing the manifest inside the `try` block. -/
structure UpdateEnv where
  cfg : Config
  check_ok : Bool
  extract_ok : Bool
  parse : Except Unit (List UChild)

/-- The observable outcome of one `update_data_from_zip` run: the
return value the body decides on (`none` models the bare early
`return`; when `cleanup_raised` holds the call ends in the `finally`'s
`FileNotFoundError` instead of returning this value), the accumulated
`list_of_errors`, the trace of mutations under the workspace, whether
the scratch `temp` directory exists after the call, whether the
`finally`'s `os.remove zip_file_path` raised (inbox path whose file is
already gone when the `finally` runs), and whether the default-inbox
source is absent when the call ends (deleted by the `finally`, or
already deleted by the run's own mutations — in which case the
`finally`'s `os.remove` raises). -/
structure UpdateResult where
  ret : Option Bool
  report : String
  ops : List FsOp
  temp_exists : Bool
  cleanup_raised : Bool
  source_removed : Bool
  deriving DecidableEq

/-- `update_data_from_zip(source="")` from the source, path by path:
clear the scratch directory; on a failed `zip_check_content` show a
warning and `return` (before the `try`, so without running the
`finally`); otherwise create the destination if missing, then inside
`try`/`except`/`finally`: extract, parse the manifest, apply the two
update passes, archive the zip on an empty report, return `True`;
return `False` on any exception caught by the `except`.  The `finally`
is modeled faithfully including its failure mode: when the source is
the default inbox path, `os.remove(zip_file_path)` runs first and
raises `FileNotFoundError` if the file at `zip_file_path` no longer
exists (tracked through the applied mutations by `zip_exists_after` —
e.g. a `remove` entry of the manifest may have deleted it); that
exception propagates out of the call and `shutil.rmtree(temp_path)` on
the next line is skipped, leaving the scratch directory behind
(`cleanup_raised`/`temp_exists`).  The archive step's
`os.path.samefile`/`shutil.copy2` reads of the source zip are modeled
as non-raising; a failed extraction is treated as having created the
scratch directory. -/
def update_data_from_zip (env : UpdateEnv) (fs : FsOracle) (source : String) :
    UpdateResult :=
  let cfg := env.cfg
  let destination := ""
  let destinantion_path := (path_get cfg "main" [some destination]).getD ""
  let zip_file_path :=
    if source = "" then (path_get cfg "zip install default file" []).getD ""
    else path_clean source
  if !env.check_ok then
    { ret := none, report := "", ops := [], temp_exists := false,
      cleanup_raised := false, source_removed := false }
  else
    let pre_ops :=
      if !(fs.existsAt destinantion_path) then [FsOp.makedirs destinantion_path]
      else []
    let is_inbox :=
      zip_file_path = (path_get cfg "zip install default file" []).getD ""
    if !env.extract_ok then
      let cr := is_inbox &&
        !(zip_exists_after zip_file_path pre_ops (fs.isfile zip_file_path))
      { ret := some false, report := "", ops := pre_ops, temp_exists := cr,
        cleanup_raised := cr, source_removed := is_inbox }
    else
      match env.parse with
      | .error _ =>
        let cr := is_inbox &&
          !(zip_exists_after zip_file_path pre_ops (fs.isfile zip_file_path))
        { ret := some false, report := "", ops := pre_ops, temp_exists := cr,
          cleanup_raised := cr, source_removed := is_inbox }
      | .ok root =>
        let res := process_root cfg fs destination root
        let final_ops :=
          if res.1 ≠ "" then pre_ops ++ res.2
          else
            let archive_file_path := (path_get cfg "zip archive file" []).getD ""
            if !(fs.existsAt archive_file_path) ||
               !(fs.samefile zip_file_path archive_file_path) then
              pre_ops ++ res.2 ++ [FsOp.copy2 zip_file_path archive_file_path]
            else pre_ops ++ res.2
        let cr := is_inbox &&
          !(zip_exists_after zip_file_path final_ops (fs.isfile zip_file_path))
        { ret := some true, report := res.1, ops := final_ops,
          temp_exists := cr, cleanup_raised := cr, source_removed := is_inbox }

/-! ## Specification-side definitions

These definitions follow the wording of the specification (not the
source); they are compared against the source embeddings above. -/

/-- The spec's containment notion: `p` is a path-prefix descendant of
`root`, or `root` itself (`p` lies under `root` as a whole path
component chain). -/
def path_within (root p : String) : Bool :=
  p = root || pyStartsWith p (root ++ "/")

/-- The sanitization step exactly as the claim for the resolver words
it: treat the parameter as a single segment, strip leading/trailing
whitespace, replace every internal whitespace character with `_`, and
remove every character not in `[A-Za-z0-9_.-]`. -/
def claim_sanitize_param (s : String) : String :=
  String.mk (((pyStrip s).toList.map (fun c => if pyIsSpace c then '_' else c)).filter
    sanitizeKeep)

/-- The resolver exactly as the claim words it: each parameter is
sanitized as a single segment and the place's template segments are
joined with the sanitized parameters in template order. -/
def path_create_claim (cfg : Config) (place : String)
    (parameters : List (Option String)) : Option String :=
  let params := (parameters.filterMap id).map claim_sanitize_param
  match path_struct cfg params place with
  | some elems => some (path_clean (assemble elems))
  | none => none

/-- The amended description of the resolver's parameter processing:
each (non-`None`) parameter is first path-normalized and split on the
separator into one or more segments, and each resulting segment is
sanitized. -/
def amended_segments (parameters : List (Option String)) : List String :=
  (parameters.filterMap id).foldr
    (fun s acc => (splitSlash (normpath s)).map sanitize_segment ++ acc) []

/-- The spec's chosen ("best fit") language: the preferred language
when an exact match exists among the matching-tag elements, else the
fallback language when present, else the first language encountered. -/
def pickChosen (elems : List XElem) (name preferredLang fallbackLang : String) :
    Option String :=
  if some preferredLang ∈ (elems.filter (fun e => e.tag = name)).map
      (fun e => e.lang) then some preferredLang
  else if some fallbackLang ∈ (elems.filter (fun e => e.tag = name)).map
      (fun e => e.lang) then some fallbackLang
  else (((elems.filter (fun e => e.tag = name)).map (fun e => e.lang)).find?
    (fun x => x.isSome)).join

/-- `pickLocalized` exactly as the spec words it: the result
concatenates, in document order, the text of every matching-tag
element in the chosen language, joined by the separator, and is `none`
when no element matches. -/
def pickLocalized_spec (elems : List XElem) (name preferredLang fallbackLang
    separator : String) : Option String :=
  match ((elems.filter (fun e => e.tag = name)).filter
      (fun e => e.lang = pickChosen elems name preferredLang fallbackLang)).map
      (fun e => pyFormat e.text) with
  | [] => none
  | t :: ts => some (joinSep separator (t :: ts))

/-- A fixed settings instance used by the concrete counterexamples:
workspace root `/home/user/mu_code`, the default class name
`my_school`, a logged-in user `alice`, language `pl`. -/
def cfgA : Config :=
  { mu_code := "/home/user/mu_code", subpath_class := "my_school",
    user_name := "alice", language := "pl" }

/-- A file oracle with a single valid zip archive stored at
`/inbox/arch.dat`: a regular file, a valid zip container, containing a
manifest that parses and carries a `release` value — but without a
`.zip` extension. -/
def oracleDat : FileOracle :=
  { isfile := fun p => p = "/inbox/arch.dat"
  , is_zipfile := fun p => p = "/inbox/arch.dat"
  , namelist := fun p => if p = "/inbox/arch.dat" then [CONFIG_FILENAME] else []
  , config := fun p =>
      if p = "/inbox/arch.dat" then
        XmlSource.doc [{ tag := "release", lang := none, text := some "1.0" }]
      else XmlSource.empty }

/-- A filesystem oracle on which nothing exists. -/
def fsEmpty : FsOracle :=
  { existsAt := fun _ => false, isdir := fun _ => false,
    isfile := fun _ => false, samefile := fun _ _ => false }

/-- An installer environment whose `zip_check_content` verdict is
`False` (invalid data in the zip file), everything else fine. -/
def envNoCheck : UpdateEnv :=
  { cfg := cfgA, check_ok := false, extract_ok := true, parse := .ok [] }

/-- The string `sub` occurs contiguously inside `s`. -/
def substr_of (sub s : String) : Prop :=
  ∃ pre post : String, s = pre ++ sub ++ post

/-- A mutation produced by a `remove` entry (`shutil.rmtree` or
`os.remove`). -/
def isRemoveKind : FsOp → Bool
  | .rmtree _ => true
  | .removeFile _ => true
  | _ => false

/-- A mutation produced by a `copy` entry (`recursive_overwrite`). -/
def isCopyKind : FsOp → Bool
  | .overwrite _ _ => true
  | _ => false

/-- A mutation produced by a change-list entry (as opposed to the
destination `makedirs` or the final archive `copy2`). -/
def isEntryOp (op : FsOp) : Bool :=
  isRemoveKind op || isCopyKind op

/-! ## Helper lemmas -/

theorem str_empty_append (s : String) : "" ++ s = s := by
  cases s
  rfl

theorem str_append_assoc (a b c : String) : a ++ b ++ c = a ++ (b ++ c) := by
  cases a
  cases b
  cases c
  exact congrArg String.mk (List.append_assoc _ _ _)

/-- Unfolding `params_separate` over an arbitrary accumulator. -/
theorem params_separate_acc (ps : List (Option String)) (acc : List String) :
    ps.foldl (fun acc e =>
      match e with
      | none => acc
      | some s => acc ++ splitSlash (normpath s)) acc
      = acc ++ params_separate ps := by
  induction ps generalizing acc with
  | nil => simp [params_separate]
  | cons e rest ih =>
    cases e with
    | none =>
      simp only [List.foldl_cons]
      rw [ih]
      rfl
    | some s =>
      simp only [List.foldl_cons]
      rw [ih, show params_separate (some s :: rest) =
        List.foldl (fun acc e =>
          match e with
          | none => acc
          | some s => acc ++ splitSlash (normpath s)) (splitSlash (normpath s)) rest from rfl]
      rw [ih (splitSlash (normpath s))]
      rw [List.append_assoc]

/-- `params_separate` distributes over cons. -/
theorem params_separate_cons (e : Option String) (rest : List (Option String)) :
    params_separate (e :: rest) =
      (match e with
       | none => []
       | some s => splitSlash (normpath s)) ++ params_separate rest := by
  cases e with
  | none => rfl
  | some s =>
    show List.foldl _ (List.nil ++ splitSlash (normpath s)) rest = _
    rw [params_separate_acc rest (List.nil ++ splitSlash (normpath s))]
    rfl

/-- The parameter pipeline of `__path_create` (separate, then sanitize
every piece) equals the amended description (per parameter: normalize,
split, sanitize each segment, concatenate in order). -/
theorem params_pipeline_eq (ps : List (Option String)) :
    params_sanitize (params_separate ps) = amended_segments ps := by
  induction ps with
  | nil => rfl
  | cons e rest ih =>
    cases e with
    | none =>
      rw [params_separate_cons]
      simpa [amended_segments] using ih
    | some s =>
      rw [params_separate_cons]
      simp only [params_sanitize, List.map_append, amended_segments,
        List.filterMap_cons, id, List.foldr_cons]
      rw [show amended_segments rest =
        List.foldr (fun s acc => (splitSlash (normpath s)).map sanitize_segment ++ acc)
          [] (rest.filterMap id) from rfl] at ih
      rw [← ih]
      rfl

/-- `pjoin` of a single contribution. -/
theorem pjoin_single (x : String × List FsOp) : pjoin [x] = x := by
  cases x with
  | mk a b => simp [pjoin, strJoin, str_empty_append]

/-- `process_root` over a single root child. -/
theorem process_root_single (cfg : Config) (fs : FsOracle) (d : String)
    (child : UChild) :
    process_root cfg fs d [child] = update_child_ops cfg fs d child := by
  simp [process_root, pjoin_single]

/-- Every mutation of a `remove` iteration is remove-kind. -/
theorem remove_entry_kind (cfg : Config) (fs : FsOracle) (d : String) (e : UEntry) :
    ∀ op ∈ (remove_entry cfg fs d e).2, isRemoveKind op = true := by
  intro op hop
  unfold remove_entry at hop
  simp only [apply_ite Prod.snd] at hop
  split_ifs at hop <;> simp_all [isRemoveKind]

/-- Every mutation of a `copy` iteration is copy-kind. -/
theorem copy_entry_kind (cfg : Config) (fs : FsOracle) (d : String) (e : UEntry) :
    ∀ op ∈ (copy_entry cfg fs d e).2, isCopyKind op = true := by
  intro op hop
  unfold copy_entry at hop
  simp only [apply_ite Prod.snd] at hop
  split_ifs at hop <;> simp_all [isCopyKind]

/-- Kind of every mutation in a flattened per-entry trace. -/
theorem flatten_map_kind {α : Type} (f : α → List FsOp) (P : FsOp → Bool)
    (l : List α) (h : ∀ a, ∀ op ∈ f a, P op = true) :
    ∀ op ∈ (l.map f).flatten, P op = true := by
  intro op hop
  rw [List.mem_flatten] at hop
  obtain ⟨li, hli, hopi⟩ := hop
  rw [List.mem_map] at hli
  obtain ⟨a, _, rfl⟩ := hli
  exact h a op hopi

theorem str_append_empty (s : String) : s ++ "" = s := by
  cases s
  exact congrArg String.mk (List.append_nil _)

/-- Unfolding `strJoin` over an arbitrary accumulator. -/
theorem strJoin_acc (l : List String) (a : String) :
    l.foldl (fun x y => x ++ y) a = a ++ strJoin l := by
  induction l generalizing a with
  | nil => simp [strJoin, str_append_empty]
  | cons x xs ih =>
    simp only [List.foldl_cons]
    rw [ih, show strJoin (x :: xs) = List.foldl (fun x y => x ++ y) ("" ++ x) xs
      from rfl]
    rw [ih ("" ++ x), str_empty_append, str_append_assoc]

theorem strJoin_cons (x : String) (xs : List String) :
    strJoin (x :: xs) = x ++ strJoin xs := by
  show List.foldl _ ("" ++ x) xs = _
  rw [strJoin_acc, str_empty_append]

theorem substr_of_refl (s : String) : substr_of s s :=
  ⟨"", "", by rw [str_empty_append, str_append_empty]⟩

theorem substr_of_append_left (sub s p : String) (h : substr_of sub s) :
    substr_of sub (p ++ s) := by
  obtain ⟨pre, post, rfl⟩ := h
  exact ⟨p ++ pre, post, by simp [str_append_assoc]⟩

theorem substr_of_append_right (sub s q : String) (h : substr_of sub s) :
    substr_of sub (s ++ q) := by
  obtain ⟨pre, post, rfl⟩ := h
  exact ⟨pre, post ++ q, by simp [str_append_assoc]⟩

/-- A member's contribution occurs inside the joined contributions. -/
theorem strJoin_mem {α : Type} (f : α → String) (l : List α) (a : α)
    (h : a ∈ l) : substr_of (f a) (strJoin (l.map f)) := by
  induction l with
  | nil => cases h
  | cons x xs ih =>
    rw [List.map_cons, strJoin_cons]
    rcases List.mem_cons.mp h with rfl | hxs
    · exact substr_of_append_right _ _ _ (substr_of_refl _)
    · exact substr_of_append_left _ _ _ (ih hxs)

/-- The report of a single-`update`-child manifest: the `remove`-pass
report lines followed by the `copy`-pass report lines, in entry
order. -/
theorem process_single_report (cfg : Config) (fs : FsOracle) (d : String)
    (entries : List UEntry) :
    (process_root cfg fs d [{ tag := "update", entries := entries }]).1 =
      strJoin (entries.map (fun e => (remove_entry cfg fs d e).1)) ++
      strJoin (entries.map (fun e => (copy_entry cfg fs d e).1)) := by
  rw [process_root_single]
  simp only [update_child_ops, pjoin, if_true, reduceIte, List.map_map]
  rfl

/-- The mutation trace of a single-`update`-child manifest: the
`remove`-pass mutations followed by the `copy`-pass mutations. -/
theorem process_single_ops (cfg : Config) (fs : FsOracle) (d : String)
    (entries : List UEntry) :
    (process_root cfg fs d [{ tag := "update", entries := entries }]).2 =
      (entries.map (fun e => (remove_entry cfg fs d e).2)).flatten ++
      (entries.map (fun e => (copy_entry cfg fs d e).2)).flatten := by
  rw [process_root_single]
  simp only [update_child_ops, pjoin, if_true, reduceIte, List.map_map]
  rfl

/-- On a run that reaches the update loops (validation, extraction and
manifest parse all succeed), `update_data_from_zip` returns `True`, its
report is the report of `process_root`, and its trace contains the
`process_root` trace contiguously. -/
theorem update_run_char (env : UpdateEnv) (fs : FsOracle) (source : String)
    (root : List UChild)
    (h1 : env.check_ok = true) (h2 : env.extract_ok = true)
    (hp : env.parse = .ok root) :
    (update_data_from_zip env fs source).ret = some true ∧
    (update_data_from_zip env fs source).report = (process_root env.cfg fs "" root).1 ∧
    ∃ pre post : List FsOp,
      (update_data_from_zip env fs source).ops =
        pre ++ ((process_root env.cfg fs "" root).2 ++ post) := by
  simp only [update_data_from_zip, h1, h2, hp, Bool.not_true, Bool.false_eq_true,
    if_false]
  split_ifs <;>
    refine ⟨by trivial, by trivial, ?_⟩ <;>
      first
        | exact ⟨_, _, List.append_assoc _ _ _⟩
        | exact ⟨_, [], by rw [List.append_nil]⟩

/-- Sanitized segments never contain a space: the space characters are
either stripped, replaced by `_`, or (for other whitespace) removed by
the character filter. -/
theorem sanitize_segment_no_space (s : String) :
    ' ' ∉ (sanitize_segment s).toList := by
  intro hmem
  have hk : sanitizeKeep ' ' = true :=
    (List.mem_filter.mp hmem).2
  simp [sanitizeKeep, pyWordChar] at hk

/-- No sanitized segment is the pseudo-segment literal (which contains
spaces). -/
theorem sanitize_segment_ne_pseudo (s : String) :
    sanitize_segment s ≠ APPEND_PY := by
  intro h
  have hns := sanitize_segment_no_space s
  rw [h] at hns
  exact hns (by decide)

/-- The pseudo-segment never arises from the parameter pipeline. -/
theorem no_pseudo_param (parameters : List (Option String)) :
    APPEND_PY ∉ params_sanitize (params_separate parameters) := by
  intro h
  rw [params_sanitize, List.mem_map] at h
  obtain ⟨s, _, hs⟩ := h
  exact sanitize_segment_ne_pseudo s hs

/-- The first loop returns the preferred language as soon as some
matching-tag element carries it (the `break`). -/
theorem find_best_fit_exact (n : String) (L D : Option String) :
    ∀ (elems : List XElem) (b : Option String),
      (∃ e ∈ elems, e.tag = n ∧ e.lang = L) →
      find_best_fit n L D elems b = L := by
  intro elems
  induction elems with
  | nil =>
    rintro b ⟨e, he, -⟩
    cases he
  | cons x xs ih =>
    rintro b ⟨e, he, htag, hlang⟩
    rcases List.mem_cons.mp he with rfl | hxs
    · simp [find_best_fit, htag, hlang]
    · by_cases ht : x.tag = n
      · by_cases hw : x.lang = L
        · simp [find_best_fit, ht, hw]
        · by_cases hd : x.lang = D
          · have hDL : ¬ D = L := fun h => hw (hd.trans h)
            simp only [find_best_fit, ht, if_true, hw, if_false, hd, hDL,
              reduceIte]
            exact ih D ⟨e, hxs, htag, hlang⟩
          · by_cases hb : b = none
            · simp only [find_best_fit, ht, if_true, hw, hd, hb, if_false,
                reduceIte]
              exact ih x.lang ⟨e, hxs, htag, hlang⟩
            · simp only [find_best_fit, ht, if_true, hw, hd, hb, if_false,
                reduceIte]
              exact ih b ⟨e, hxs, htag, hlang⟩
      · simp only [find_best_fit, ht, if_false, reduceIte]
        exact ih b ⟨e, hxs, htag, hlang⟩

/-- With no exact and no default match, a non-`None` best-so-far is
kept to the end. -/
theorem find_best_fit_keep (n : String) (L D : Option String) :
    ∀ (elems : List XElem) (b : Option String),
      (∀ e ∈ elems, e.tag = n → e.lang ≠ L) →
      (∀ e ∈ elems, e.tag = n → e.lang ≠ D) →
      b ≠ none →
      find_best_fit n L D elems b = b := by
  intro elems
  induction elems with
  | nil => intro b _ _ _; rfl
  | cons x xs ih =>
    intro b hL hD hb
    by_cases ht : x.tag = n
    · have hw : x.lang ≠ L := hL x (List.mem_cons_self x xs) ht
      have hd : x.lang ≠ D := hD x (List.mem_cons_self x xs) ht
      simp only [find_best_fit, ht, if_true, hw, hd, hb, if_false, reduceIte]
      exact ih b (fun e he => hL e (List.mem_cons_of_mem x he))
        (fun e he => hD e (List.mem_cons_of_mem x he)) hb
    · simp only [find_best_fit, ht, if_false, reduceIte]
      exact ih b (fun e he => hL e (List.mem_cons_of_mem x he))
        (fun e he => hD e (List.mem_cons_of_mem x he)) hb

/-- With no exact and no default match and nothing remembered yet, the
first language encountered among matching-tag elements wins (skipping
absent `lang` attributes, which leave the best-so-far `None`). -/
theorem find_best_fit_first (n : String) (L D : Option String) :
    ∀ elems : List XElem,
      (∀ e ∈ elems, e.tag = n → e.lang ≠ L) →
      (∀ e ∈ elems, e.tag = n → e.lang ≠ D) →
      find_best_fit n L D elems none =
        (((elems.filter (fun e => e.tag = n)).map (fun e => e.lang)).find?
          (fun x => x.isSome)).join := by
  intro elems
  induction elems with
  | nil => intro _ _; rfl
  | cons x xs ih =>
    intro hL hD
    by_cases ht : x.tag = n
    · have hw : x.lang ≠ L := hL x (List.mem_cons_self x xs) ht
      have hd : x.lang ≠ D := hD x (List.mem_cons_self x xs) ht
      have hLxs : ∀ e ∈ xs, e.tag = n → e.lang ≠ L :=
        fun e he => hL e (List.mem_cons_of_mem x he)
      have hDxs : ∀ e ∈ xs, e.tag = n → e.lang ≠ D :=
        fun e he => hD e (List.mem_cons_of_mem x he)
      rcases hx : x.lang with - | y
      · simp only [find_best_fit, ht, if_true, hw, hd, if_false, reduceIte]
        rw [hx, ih hLxs hDxs]
        simp [List.filter_cons, ht, hx]
      · simp only [find_best_fit, ht, if_true, hw, hd, if_false, reduceIte]
        rw [find_best_fit_keep n L D xs x.lang hLxs hDxs (by simp [hx])]
        simp [List.filter_cons, ht, hx]
    · simp only [find_best_fit, ht, if_false, reduceIte]
      rw [ih (fun e he => hL e (List.mem_cons_of_mem x he))
        (fun e he => hD e (List.mem_cons_of_mem x he))]
      simp [List.filter_cons, ht]

/-- With no exact match, a present (non-`None`) default language wins
regardless of the remembered best-so-far. -/
theorem find_best_fit_default (n : String) (L D : Option String) :
    ∀ (elems : List XElem) (b : Option String),
      (∀ e ∈ elems, e.tag = n → e.lang ≠ L) →
      (∃ e ∈ elems, e.tag = n ∧ e.lang = D) →
      D ≠ none →
      find_best_fit n L D elems b = D := by
  intro elems
  induction elems with
  | nil =>
    rintro b _ ⟨e, he, -⟩
    cases he
  | cons x xs ih =>
    rintro b hL ⟨e, he, htag, hlang⟩ hD
    have hLxs : ∀ e ∈ xs, e.tag = n → e.lang ≠ L :=
      fun e he => hL e (List.mem_cons_of_mem x he)
    by_cases ht : x.tag = n
    · have hw : x.lang ≠ L := hL x (List.mem_cons_self x xs) ht
      by_cases hd : x.lang = D
      · have hDL : ¬ D = L := fun h => hw (hd.trans h)
        simp only [find_best_fit, ht, if_true, hw, hd, hDL, if_false, reduceIte]
        by_cases hex : ∃ e ∈ xs, e.tag = n ∧ e.lang = D
        · exact ih D hLxs hex hD
        · push_neg at hex
          exact find_best_fit_keep n L D xs D hLxs
            (fun e he het => hex e he het) hD
      · rcases List.mem_cons.mp he with rfl | hxs
        · exact absurd hlang hd
        · by_cases hb : b = none
          · simp only [find_best_fit, ht, if_true, hw, hd, hb, if_false,
              reduceIte]
            exact ih x.lang hLxs ⟨e, hxs, htag, hlang⟩ hD
          · simp only [find_best_fit, ht, if_true, hw, hd, hb, if_false,
              reduceIte]
            exact ih b hLxs ⟨e, hxs, htag, hlang⟩ hD
    · rcases List.mem_cons.mp he with rfl | hxs
      · exact absurd htag ht
      · simp only [find_best_fit, ht, if_false, reduceIte]
        exact ih b hLxs ⟨e, hxs, htag, hlang⟩ hD

/-- The first loop computes exactly the spec's chosen language: exact
match beats default beats first-encountered. -/
theorem find_best_fit_spec (elems : List XElem) (n l d : String) :
    find_best_fit n (some l) (some d) elems none = pickChosen elems n l d := by
  unfold pickChosen
  by_cases hex : ∃ e ∈ elems, e.tag = n ∧ e.lang = some l
  · have hmem : some l ∈ (elems.filter (fun e => e.tag = n)).map
        (fun e => e.lang) := by
      obtain ⟨e, he, htag, hlang⟩ := hex
      exact List.mem_map.mpr ⟨e, List.mem_filter.mpr ⟨he, by simp [htag]⟩, hlang⟩
    rw [if_pos hmem]
    exact find_best_fit_exact n (some l) (some d) elems none hex
  · have hnmem : some l ∉ (elems.filter (fun e => e.tag = n)).map
        (fun e => e.lang) := by
      intro hmem
      obtain ⟨e, hef, hlang⟩ := List.mem_map.mp hmem
      obtain ⟨he, htag⟩ := List.mem_filter.mp hef
      exact hex ⟨e, he, by simpa using htag, hlang⟩
    rw [if_neg hnmem]
    have hL : ∀ e ∈ elems, e.tag = n → e.lang ≠ some l := by
      intro e he htag hlang
      exact hex ⟨e, he, htag, hlang⟩
    by_cases hdef : ∃ e ∈ elems, e.tag = n ∧ e.lang = some d
    · have hmemd : some d ∈ (elems.filter (fun e => e.tag = n)).map
          (fun e => e.lang) := by
        obtain ⟨e, he, htag, hlang⟩ := hdef
        exact List.mem_map.mpr ⟨e, List.mem_filter.mpr ⟨he, by simp [htag]⟩, hlang⟩
      rw [if_pos hmemd]
      exact find_best_fit_default n (some l) (some d) elems none hL hdef
        (by simp)
    · have hnmemd : some d ∉ (elems.filter (fun e => e.tag = n)).map
          (fun e => e.lang) := by
        intro hmem
        obtain ⟨e, hef, hlang⟩ := List.mem_map.mp hmem
        obtain ⟨he, htag⟩ := List.mem_filter.mp hef
        exact hdef ⟨e, he, by simpa using htag, hlang⟩
      rw [if_neg hnmemd]
      have hD : ∀ e ∈ elems, e.tag = n → e.lang ≠ some d := by
        intro e he htag hlang
        exact hdef ⟨e, he, htag, hlang⟩
      exact find_best_fit_first n (some l) (some d) elems hL hD

/-- Unfolding the second loop from a non-`None` accumulator: every
further matching element's text is appended with the separator. -/
theorem collect_fold_some (n : String) (best : Option String) (sep : String) :
    ∀ (elems : List XElem) (r : String),
      elems.foldl (fun result e =>
        if e.tag = n && e.lang = best then
          match result with
          | none => e.text
          | some r => some (r ++ sep ++ pyFormat e.text)
        else result) (some r)
      = some (joinSep sep (r ::
          (elems.filter (fun e => e.tag = n && e.lang = best)).map
            (fun e => pyFormat e.text))) := by
  intro elems
  induction elems with
  | nil => intro r; rfl
  | cons x xs ih =>
    intro r
    by_cases hc : x.tag = n && x.lang = best
    · simp only [List.foldl_cons, hc, if_true, List.filter_cons, reduceIte,
        List.map_cons]
      rw [ih (r ++ sep ++ pyFormat x.text)]
      rfl
    · simp only [List.foldl_cons, hc, if_false, List.filter_cons, reduceIte,
        Bool.false_eq_true]
      exact ih r

/-- The second loop concatenates, in document order, the texts of the
matching-tag elements in the chosen language, joined with the
separator; `None` when there is none (matching texts assumed
present). -/
theorem collect_lang_eq (n : String) (best : Option String) (sep : String) :
    ∀ elems : List XElem,
      (∀ e ∈ elems, e.tag = n → e.text ≠ none) →
      collect_lang n best sep elems =
        (match (elems.filter (fun e => e.tag = n && e.lang = best)).map
            (fun e => pyFormat e.text) with
         | [] => none
         | t :: ts => some (joinSep sep (t :: ts))) := by
  intro elems
  induction elems with
  | nil => intro _; rfl
  | cons x xs ih =>
    intro htext
    by_cases hc : x.tag = n && x.lang = best
    · have htag : x.tag = n := by
        have := hc
        simp only [Bool.and_eq_true, decide_eq_true_eq] at this
        exact this.1
      obtain ⟨t, ht⟩ : ∃ t, x.text = some t := by
        cases hx : x.text with
        | none => exact absurd hx (htext x (List.mem_cons_self x xs) htag)
        | some t => exact ⟨t, rfl⟩
      unfold collect_lang
      rw [List.foldl_cons]
      simp only [hc, if_true, reduceIte, List.filter_cons, List.map_cons]
      rw [ht]
      rw [collect_fold_some n best sep xs t]
      rfl
    · unfold collect_lang
      rw [List.foldl_cons]
      simp only [hc, if_false, reduceIte, Bool.false_eq_true, List.filter_cons]
      exact ih (fun e he => htext e (List.mem_cons_of_mem x he))

/-- `xml_get_with_lang` refines the spec's two-pass `pickLocalized`
description, when the preferred and fallback languages are actual
strings and every matching-tag element has a text. -/
theorem xml_get_with_lang_refines (elems : List XElem) (n l d sep : String)
    (htext : ∀ e ∈ elems, e.tag = n → e.text ≠ none) :
    xml_get_with_lang elems n (some l) (some d) sep =
      pickLocalized_spec elems n l d sep := by
  unfold xml_get_with_lang pickLocalized_spec
  rw [find_best_fit_spec]
  rw [collect_lang_eq n _ sep elems htext]
  have hcomm :
      List.filter (fun e =>
          decide (e.lang = pickChosen elems n l d) && decide (e.tag = n)) elems
        = List.filter (fun e =>
          decide (e.tag = n) && decide (e.lang = pickChosen elems n l d)) elems :=
    List.filter_congr (fun e _ => Bool.and_comm _ _)
  rw [List.filter_filter, hcomm]

/-- With no matching-tag element at all, `xml_get_with_lang` returns
`None`. -/
theorem xml_get_with_lang_none (elems : List XElem) (n : String)
    (lang default : Option String) (sep : String)
    (hnone : ∀ e ∈ elems, e.tag ≠ n) :
    xml_get_with_lang elems n lang default sep = none := by
  unfold xml_get_with_lang
  rw [collect_lang_eq n _ sep elems (fun e he ht => absurd ht (hnone e he))]
  rw [List.filter_eq_nil_iff.mpr (fun e he => by simp [hnone e he])]
  rfl

/-- The spec's concrete example elements: an English and a Polish
title. -/
def exTitles : List XElem :=
  [{ tag := "title", lang := some "en", text := some "Hello" },
   { tag := "title", lang := some "pl", text := some "Cześć" }]

/-! ## Claim theorems -/

/-- C1: the claim states that a `valid_path`-accepted path (with
`allow_main = true`) is always a path-prefix descendant of the canonical
main root or the root itself, and in particular that a sibling directory
whose name merely begins with the root's name is never accepted.  The
code compares with `str.startswith` on raw strings, so the sibling
`/home/user/mu_code/codeinpython_env_evil` of the root
`/home/user/mu_code/codeinpython_env` is accepted (with either value of
`allow_main`) although it is outside the root. -/
theorem c1_sibling_accepted :
    valid_path cfgA "/home/user/mu_code/codeinpython_env_evil/proj" true = true ∧
    valid_path cfgA "/home/user/mu_code/codeinpython_env_evil/proj" false = true ∧
    main_limit cfgA = "/home/user/mu_code/codeinpython_env" ∧
    path_within (main_limit cfgA) "/home/user/mu_code/codeinpython_env_evil/proj"
      = false := by
  decide

/-- C2: the claim states that every parameter string containing `..` or
`/` is rejected by `resolve` followed by `checkContainment`.  The
parameter `"../codeinpython_env_evil"` (containing both) resolves under
the `"main"` place to the sibling directory
`/home/user/mu_code/codeinpython_env_evil`, which lies outside the root
yet is accepted by `valid_path` (so `path_get` returns it instead of
`""`). -/
theorem c2_adversarial_param_accepted :
    pyStartsWith "../codeinpython_env_evil" ".." = true ∧
    path_get cfgA "main" [some "../codeinpython_env_evil"] =
      some "/home/user/mu_code/codeinpython_env_evil" ∧
    valid_path cfgA "/home/user/mu_code/codeinpython_env_evil" true = true ∧
    path_within (main_limit cfgA) "/home/user/mu_code/codeinpython_env_evil"
      = false := by
  decide

/-- C3 counterexample: sanitizing the parameter `"x/y"` as a single
segment (as the claim words it) would strip the `/` and give
`.../workspace/xy`, but `__path_create` splits the parameter on the
separator first and yields `.../workspace/x/y`, so the claim's
description of the sanitization is false of the code. -/
theorem c3_counterexample :
    path_create_claim cfgA "workspace" [some "x/y"] =
      some "/home/user/mu_code/codeinpython_env/workspace/xy" ∧
    path_create cfgA "workspace" [some "x/y"] =
      some "/home/user/mu_code/codeinpython_env/workspace/x/y" ∧
    path_create cfgA "workspace" [some "x/y"] ≠
      path_create_claim cfgA "workspace" [some "x/y"] := by
  decide

/-- C3 (amended): for every caller-supplied parameter, `resolve` first
applies `os.path.normpath` and splits the parameter on the path
separator into one or more segments; each resulting segment is stripped
of leading/trailing whitespace, its internal space characters (U+0020)
are replaced with `_` (other whitespace characters are removed by the
character filter rather than replaced), and every character not in the
word class plus `.` and `-` is removed; the place's literal template
segments are then joined with all resulting segments in template
order.  (`None` parameters are skipped.) -/
theorem c3_amended_sanitization :
    (∀ (cfg : Config) (place : String) (parameters : List (Option String)),
      path_create cfg place parameters =
        (path_struct cfg (amended_segments parameters) place).map
          (fun elems => path_clean (assemble elems))) ∧
    sanitize_segment " a b " = "a_b" ∧
    sanitize_segment "a\tb" = "ab" := by
  refine ⟨?_, by decide, by decide⟩
  intro cfg place parameters
  simp only [path_create, ← params_pipeline_eq]
  cases path_struct cfg (params_sanitize (params_separate parameters)) place <;>
    simp

/-- C4 counterexample: the archive at `/inbox/arch.dat` is a regular
file, a valid zip container, contains the manifest, and its manifest
parses with a `release` value present — all four conditions of the
claim — yet `zip_check_content` returns `False`, because
`zip_get_version` additionally requires the file name to carry a
`.zip` extension.  So the claimed four-condition iff (independent of
the file's name) is false of the code. -/
theorem c4_counterexample :
    oracleDat.isfile "/inbox/arch.dat" = true ∧
    oracleDat.is_zipfile "/inbox/arch.dat" = true ∧
    CONFIG_FILENAME ∈ oracleDat.namelist "/inbox/arch.dat" ∧
    oracleDat.config "/inbox/arch.dat" =
      XmlSource.doc [{ tag := "release", lang := none, text := some "1.0" }] ∧
    (List.any [({ tag := "release", lang := none, text := some "1.0" } : XElem)]
      (fun e => e.tag = "release" && e.text.isSome)) = true ∧
    zip_check_content cfgA oracleDat "/inbox/arch.dat" = .ok false := by
  refine ⟨by decide, by decide, by decide, by decide, by decide, ?_⟩
  rfl

/-- C9 counterexample: `update_data_from_zip` called on the default
inbox source (`source = ""`) with failing content validation returns
early, before the `try`/`finally` block, so the inbox archive is not
deleted — contradicting the claim that the source is deleted on every
exit path including the content-validation failure path. -/
theorem c9_counterexample :
    (update_data_from_zip envNoCheck fsEmpty "").source_removed = false ∧
    (update_data_from_zip envNoCheck fsEmpty "").ret = none := by
  refine ⟨rfl, rfl⟩

/-- A change list whose `remove` entry names the default inbox archive
itself, plus a `copy` entry whose extracted source is absent. -/
def entriesSelf : List UEntry :=
  [{ tag := "remove", text := some "codeinpython_update.zip" },
   { tag := "copy", text := some "missing_lesson.py" }]

/-- An installer environment whose manifest is `entriesSelf`. -/
def envSelf : UpdateEnv :=
  { cfg := cfgA, check_ok := true, extract_ok := true,
    parse := .ok [{ tag := "update", entries := entriesSelf }] }

/-- A filesystem on which exactly the default inbox archive exists (as
a regular file). -/
def fsSelf : FsOracle :=
  { existsAt := fun p =>
      p = "/home/user/mu_code/codeinpython_env/codeinpython_update.zip"
  , isdir := fun _ => false
  , isfile := fun p =>
      p = "/home/user/mu_code/codeinpython_env/codeinpython_update.zip"
  , samefile := fun _ _ => false }

/-- C8: the claim says the scratch extraction directory does not exist
after every call, including a thrown-exception exit.  It is false of
the program: installing from the default inbox an archive whose
manifest contains `remove: codeinpython_update.zip` resolves that entry
to the inbox path itself, passes containment (its parent is the main
root), and deletes the file mid-run; in the `finally`,
`os.remove(zip_file_path)` then raises `FileNotFoundError` before
`shutil.rmtree(temp_path)`, so the call ends in that exception with the
extracted scratch directory still present.  This theorem evaluates the
installer at that failing input: the `remove` entry targets the inbox
file, the cleanup raises, and `temp` survives. -/
theorem c8_cleanup_skipped :
    FsOp.removeFile
        "/home/user/mu_code/codeinpython_env/codeinpython_update.zip"
      ∈ (update_data_from_zip envSelf fsSelf "").ops ∧
    (update_data_from_zip envSelf fsSelf "").ret = some true ∧
    (update_data_from_zip envSelf fsSelf "").report ≠ "" ∧
    (update_data_from_zip envSelf fsSelf "").cleanup_raised = true ∧
    (update_data_from_zip envSelf fsSelf "").temp_exists = true := by
  refine ⟨by decide, rfl, by decide, rfl, rfl⟩

/-- C9 (amended): on every exit path of `update_data_from_zip` that
passes content validation — success, partial failure, or exception —
if the source is the well-known default inbox path, the source file is
deleted in the `finally` block; when content validation fails the
function returns before the `try`, so the inbox file is not deleted on
that path. -/
theorem c9_amended_inbox_consumed :
    ∀ (env : UpdateEnv) (fs : FsOracle) (source : String),
      env.check_ok = true →
      (if source = "" then (path_get env.cfg "zip install default file" []).getD ""
       else path_clean source)
        = (path_get env.cfg "zip install default file" []).getD "" →
      (update_data_from_zip env fs source).source_removed = true := by
  intro env fs source hchk hsrc
  simp only [update_data_from_zip, hchk, Bool.not_true, Bool.false_eq_true,
    if_false]
  split
  · simp [hsrc]
  · split <;> simp [hsrc]

/-- Witness environment for the amended C9: content validation passes
and the manifest is an empty root. -/
def envOk : UpdateEnv :=
  { cfg := cfgA, check_ok := true, extract_ok := true, parse := .ok [] }

/-- Witness for the amended C9 at a concrete input: the default inbox
source of a validated archive is deleted. -/
theorem c9_amended_witness :
    (update_data_from_zip envOk fsEmpty "").source_removed = true :=
  c9_amended_inbox_consumed envOk fsEmpty "" (by decide) (by decide)

/-- C4 (amended): `zip_check_content` returns `True` iff the target is
a regular file whose name carries a `.zip` extension, a valid zip
container, containing the manifest file, and the manifest parses as
XML; the presence of a `release` value is not required (a manifest
without one still yields `True`), and a manifest that fails to parse
raises a `ParseError` out of `zip_check_content` rather than returning
`False`. -/
theorem c4_amended_check_content :
    ∀ (cfg : Config) (o : FileOracle) (input_path : String),
      (zip_check_content cfg o input_path = .ok true ↔
        (o.isfile (checked_src cfg input_path) = true ∧
         o.is_zipfile (checked_src cfg input_path) = true ∧
         (splitext (checked_src cfg input_path)).2 = ".zip" ∧
         CONFIG_FILENAME ∈ o.namelist (checked_src cfg input_path) ∧
         ∃ root, o.config (checked_src cfg input_path) = XmlSource.doc root)) ∧
      (zip_check_content cfg o input_path = .error () ↔
        (o.isfile (checked_src cfg input_path) = true ∧
         o.is_zipfile (checked_src cfg input_path) = true ∧
         (splitext (checked_src cfg input_path)).2 = ".zip" ∧
         CONFIG_FILENAME ∈ o.namelist (checked_src cfg input_path) ∧
         o.config (checked_src cfg input_path) = XmlSource.malformed)) := by
  intro cfg o input_path
  by_cases h1 : o.isfile (checked_src cfg input_path)
  · by_cases h2 : o.is_zipfile (checked_src cfg input_path)
    · by_cases h3 : (splitext (checked_src cfg input_path)).2 = ".zip"
      · by_cases h4 : CONFIG_FILENAME ∈ o.namelist (checked_src cfg input_path)
        · cases hc : o.config (checked_src cfg input_path)
          · simp [zip_check_content, zip_get_version, xml_get_version,
              h1, h2, h3, h4, hc]
          · simp [zip_check_content, zip_get_version, xml_get_version,
              h1, h2, h3, h4, hc]
          · simp [zip_check_content, zip_get_version, xml_get_version,
              h1, h2, h3, h4, hc]
        · simp [zip_check_content, zip_get_version, xml_get_version,
            h1, h2, h3, h4]
      · simp [zip_check_content, zip_get_version, xml_get_version, h1, h2, h3]
    · simp [zip_check_content, zip_get_version, h1, h2]
  · simp [zip_check_content, zip_get_version, h1]

/-- C6: during `update_data_from_zip`, the change-list mutations are
applied as two passes — every mutation coming from a `remove` entry of
the manifest's update section precedes every mutation coming from a
`copy` entry; among the entry-driven mutations the trace decomposes
into a remove-only part followed by a copy-only part, never
interleaved. -/
theorem c6_two_pass :
    ∀ (env : UpdateEnv) (fs : FsOracle) (source : String) (entries : List UEntry),
      env.parse = .ok [{ tag := "update", entries := entries }] →
      ∃ rs cs : List FsOp,
        (update_data_from_zip env fs source).ops.filter isEntryOp = rs ++ cs ∧
        (∀ op ∈ rs, isRemoveKind op = true) ∧
        (∀ op ∈ cs, isCopyKind op = true) := by
  intro env fs source entries hp
  by_cases h1 : env.check_ok
  case neg =>
    refine ⟨[], [], ?_, by simp, by simp⟩
    simp [update_data_from_zip, h1]
  case pos =>
    by_cases h2 : env.extract_ok
    case neg =>
      refine ⟨[], [], ?_, by simp, by simp⟩
      simp only [update_data_from_zip, h1, h2, Bool.not_true, Bool.not_false,
        Bool.false_eq_true, if_false, if_true, List.append_nil]
      split <;> rfl
    case pos =>
      refine ⟨((entries.map (fun e => (remove_entry env.cfg fs "" e).2)).flatten).filter
          isEntryOp,
        ((entries.map (fun e => (copy_entry env.cfg fs "" e).2)).flatten).filter
          isEntryOp, ?_, ?_, ?_⟩
      · simp only [update_data_from_zip, h1, h2, hp, Bool.not_true,
          Bool.false_eq_true, if_false, process_root_single, update_child_ops,
          pjoin, List.map_map, if_true, reduceIte]
        split_ifs <;>
          simp [List.filter_append, isEntryOp, isRemoveKind, isCopyKind,
            Function.comp] <;> try rfl
      · intro op hop
        rw [List.mem_filter] at hop
        exact flatten_map_kind _ isRemoveKind entries
          (fun a => remove_entry_kind env.cfg fs "" a) op hop.1
      · intro op hop
        rw [List.mem_filter] at hop
        exact flatten_map_kind _ isCopyKind entries
          (fun a => copy_entry_kind env.cfg fs "" a) op hop.1

/-- A concrete change list: one `remove` entry and one `copy` entry. -/
def entriesA : List UEntry :=
  [{ tag := "remove", text := some "old_lesson" },
   { tag := "copy", text := some "baz.py" }]

/-- A concrete installer environment with a single `update` section
holding `entriesA`. -/
def envUpd : UpdateEnv :=
  { cfg := cfgA, check_ok := true, extract_ok := true,
    parse := .ok [{ tag := "update", entries := entriesA }] }

/-- Witness for C6 at a concrete input. -/
theorem c6_two_pass_witness :
    ∃ rs cs : List FsOp,
      (update_data_from_zip envUpd fsEmpty "").ops.filter isEntryOp = rs ++ cs ∧
      (∀ op ∈ rs, isRemoveKind op = true) ∧
      (∀ op ∈ cs, isCopyKind op = true) :=
  c6_two_pass envUpd fsEmpty "" entriesA (by rfl)

/-- C7: on a run that reaches the update loops, per-entry failures are
non-fatal: a `copy` entry whose extracted source is absent contributes
the report line `"- copying: <path>\n"` and is skipped, a `remove`
entry that fails containment contributes `"- removing: <path>\n"`, the
run still returns `True` (instead of aborting), and every mutation of
every other listed entry is still applied. -/
theorem c7_per_entry_failures :
    ∀ (env : UpdateEnv) (fs : FsOracle) (source : String) (entries : List UEntry),
      env.check_ok = true → env.extract_ok = true →
      env.parse = .ok [{ tag := "update", entries := entries }] →
      ((update_data_from_zip env fs source).ret = some true) ∧
      (∀ e ∈ entries, e.tag = "copy" →
        fs.existsAt ((path_get env.cfg "temp" [e.text]).getD "") = false →
        substr_of ("- copying: " ++ pyFormat e.text ++ "\n")
          (update_data_from_zip env fs source).report) ∧
      (∀ e ∈ entries, e.tag = "remove" →
        valid_path env.cfg ((path_get env.cfg "main" [some "", e.text]).getD "")
          false = false →
        substr_of ("- removing: " ++ pyFormat e.text ++ "\n")
          (update_data_from_zip env fs source).report) ∧
      (∀ e ∈ entries, ∀ op ∈ (remove_entry env.cfg fs "" e).2,
        op ∈ (update_data_from_zip env fs source).ops) ∧
      (∀ e ∈ entries, ∀ op ∈ (copy_entry env.cfg fs "" e).2,
        op ∈ (update_data_from_zip env fs source).ops) := by
  intro env fs source entries h1 h2 hp
  obtain ⟨hret, hrep, pre, post, hops⟩ := update_run_char env fs source _ h1 h2 hp
  refine ⟨hret, ?_, ?_, ?_, ?_⟩
  · intro e he htag hex
    rw [hrep, process_single_report]
    have hline : (copy_entry env.cfg fs "" e).1 =
        "- copying: " ++ pyFormat e.text ++ "\n" := by
      simp [copy_entry, htag, hex]
    refine substr_of_append_left _ _ _ ?_
    rw [← hline]
    exact strJoin_mem (fun e => (copy_entry env.cfg fs "" e).1) entries e he
  · intro e he htag hval
    rw [hrep, process_single_report]
    have hline : (remove_entry env.cfg fs "" e).1 =
        "- removing: " ++ pyFormat e.text ++ "\n" := by
      simp [remove_entry, htag, hval]
    refine substr_of_append_right _ _ _ ?_
    rw [← hline]
    exact strJoin_mem (fun e => (remove_entry env.cfg fs "" e).1) entries e he
  · intro e he op hop
    rw [hops, process_single_ops]
    refine List.mem_append.mpr (Or.inr (List.mem_append.mpr (Or.inl
      (List.mem_append.mpr (Or.inl ?_)))))
    exact List.mem_flatten.mpr
      ⟨_, List.mem_map_of_mem (fun e => (remove_entry env.cfg fs "" e).2) he, hop⟩
  · intro e he op hop
    rw [hops, process_single_ops]
    refine List.mem_append.mpr (Or.inr (List.mem_append.mpr (Or.inl
      (List.mem_append.mpr (Or.inr ?_)))))
    exact List.mem_flatten.mpr
      ⟨_, List.mem_map_of_mem (fun e => (copy_entry env.cfg fs "" e).2) he, hop⟩

/-- A filesystem oracle on which every path exists: the default inbox
archive as a regular file, everything else as a directory. -/
def fsAllDirs : FsOracle :=
  { existsAt := fun _ => true
  , isdir := fun p =>
      p ≠ "/home/user/mu_code/codeinpython_env/codeinpython_update.zip"
  , isfile := fun p =>
      p = "/home/user/mu_code/codeinpython_env/codeinpython_update.zip"
  , samefile := fun _ _ => true }

/-- Witness for C7 at a concrete input: a run with one `remove` and one
`copy` entry completes with `ret = True` and applies the listed
mutations. -/
theorem c7_per_entry_failures_witness :
    (update_data_from_zip envUpd fsAllDirs "").ret = some true :=
  (c7_per_entry_failures envUpd fsAllDirs "" entriesA
    (by rfl) (by rfl) (by rfl)).1

/-- The known place names of `path_struct`. -/
def knownPlaces : List String :=
  ["main", "workspace", "class", "student", "student file", "student private",
   "student private file", "examples", "custom examples", "zip install",
   "zip install default file", "zip_archive", "zip archive file", "temp",
   "libraries", "firmware", "mu_modules"]

/-- An unknown place resolves to `none` (the `ValueError`). -/
theorem path_struct_unknown (cfg : Config) (params : List String)
    (place : String) (hin : place ∉ knownPlaces) :
    path_struct cfg params place = none := by
  have n01 : ¬ place = "main" := by intro h; exact hin (by rw [h]; decide)
  have n02 : ¬ place = "workspace" := by intro h; exact hin (by rw [h]; decide)
  have n03 : ¬ place = "class" := by intro h; exact hin (by rw [h]; decide)
  have n04 : ¬ place = "student" := by intro h; exact hin (by rw [h]; decide)
  have n05 : ¬ place = "student file" := by
    intro h; exact hin (by rw [h]; decide)
  have n06 : ¬ place = "student private" := by
    intro h; exact hin (by rw [h]; decide)
  have n07 : ¬ place = "student private file" := by
    intro h; exact hin (by rw [h]; decide)
  have n08 : ¬ place = "examples" := by intro h; exact hin (by rw [h]; decide)
  have n09 : ¬ place = "custom examples" := by
    intro h; exact hin (by rw [h]; decide)
  have n10 : ¬ place = "zip install" := by
    intro h; exact hin (by rw [h]; decide)
  have n11 : ¬ place = "zip install default file" := by
    intro h; exact hin (by rw [h]; decide)
  have n12 : ¬ place = "zip_archive" := by
    intro h; exact hin (by rw [h]; decide)
  have n13 : ¬ place = "zip archive file" := by
    intro h; exact hin (by rw [h]; decide)
  have n14 : ¬ place = "temp" := by intro h; exact hin (by rw [h]; decide)
  have n15 : ¬ place = "libraries" := by intro h; exact hin (by rw [h]; decide)
  have n16 : ¬ place = "firmware" := by intro h; exact hin (by rw [h]; decide)
  have n17 : ¬ place = "mu_modules" := by
    intro h; exact hin (by rw [h]; decide)
  simp only [path_struct, n01, n02, n03, n04, n05, n06, n07, n08, n09, n10,
    n11, n12, n13, n14, n15, n16, n17, if_false, ite_false]

/-- C10: no caller-supplied parameter can trigger the
`"append py file"` pseudo-segment behaviour of the resolver: the
sanitization replaces internal spaces with underscores, so no sanitized
parameter segment ever equals the pseudo-segment literal; consequently
the pseudo-segment occurs among a place's assembled template elements
exactly for the fixed trailing entry of the `"student file"` and
`"student private file"` templates (given that the configured class
name, user name and workspace root are not themselves the literal). -/
theorem c10_pseudo_only_fixed :
    (∀ parameters : List (Option String),
      APPEND_PY ∉ params_sanitize (params_separate parameters)) ∧
    (∀ (cfg : Config) (place : String) (parameters : List (Option String))
       (elems : List String),
      cfg.mu_code ≠ APPEND_PY → cfg.subpath_class ≠ APPEND_PY →
      cfg.user_name ≠ APPEND_PY →
      path_struct cfg (params_sanitize (params_separate parameters)) place
        = some elems →
      (APPEND_PY ∈ elems ↔
        place = "student file" ∨ place = "student private file")) := by
  refine ⟨no_pseudo_param, ?_⟩
  intro cfg place parameters elems hmu hcls husr helems
  have hmu' : "append py file" ≠ cfg.mu_code := fun h => hmu h.symm
  have hcls' : "append py file" ≠ cfg.subpath_class := fun h => hcls h.symm
  have husr' : "append py file" ≠ cfg.user_name := fun h => husr h.symm
  have hpar : "append py file" ∉ params_sanitize (params_separate parameters) :=
    no_pseudo_param parameters
  by_cases hin : place ∈ knownPlaces
  · fin_cases hin <;>
      (simp +decide [path_struct, Option.some.injEq] at helems
       subst helems
       simp +decide [List.mem_append, APPEND_PY, hmu', hcls', husr', hpar])
  · rw [path_struct_unknown cfg _ place hin] at helems
    exact absurd helems (by simp)

/-- C5: `xml_get_with_lang` implements the spec's `pickLocalized`
algorithm — exact match to the preferred language wins, else the
fallback/default language, else the first language encountered, and the
texts of the matching-tag elements in the chosen language are
concatenated in document order with the separator.  Concretely, on
`[(title, en, "Hello"), (title, pl, "Cześć")]` the preferred language
`pl` yields `"Cześć"` and the preferred language `fr` (with default
`en` present) yields `"Hello"`; with no matching element the result is
`None`. -/
theorem c5_pick_localized :
    (∀ (elems : List XElem) (n l d sep : String),
      (∀ e ∈ elems, e.tag = n → e.text ≠ none) →
      xml_get_with_lang elems n (some l) (some d) sep =
        pickLocalized_spec elems n l d sep) ∧
    xml_get_with_lang exTitles "title" (some "pl") (some "en") "" =
      some "Cześć" ∧
    xml_get_with_lang exTitles "title" (some "fr") (some "en") "" =
      some "Hello" ∧
    (∀ (elems : List XElem) (n : String) (lang default : Option String)
      (sep : String),
      (∀ e ∈ elems, e.tag ≠ n) →
      xml_get_with_lang elems n lang default sep = none) :=
  ⟨xml_get_with_lang_refines, by decide, by decide, xml_get_with_lang_none⟩

/-- Witness for C5 at a concrete input: the refinement instantiated on
the example elements with preferred language `pl`. -/
theorem c5_pick_localized_witness :
    xml_get_with_lang exTitles "title" (some "pl") (some "en") "" =
      pickLocalized_spec exTitles "title" "pl" "en" "" :=
  c5_pick_localized.1 exTitles "title" "pl" "en" "" (by decide)

/-- Witness for C10 at a concrete input: for the `"student file"`
place the pseudo-segment is present (as the fixed trailing template
entry). -/
theorem c10_pseudo_only_fixed_witness :
    APPEND_PY ∈ ["/home/user/mu_code", "codeinpython_env", "workspace",
      "my_school", "alice", "append py file"] ↔
      ("student file" = "student file" ∨
       "student file" = "student private file") :=
  c10_pseudo_only_fixed.2 cfgA "student file" [] _
    (by decide) (by decide) (by decide) (by decide)

end CodeInPython
